import Mathlib

/-!
Shallow embedding of the helmutkemper/dns library core: the DNS message
codec (header packing, resource packing and unpacking), the authoritative
zone store, the resource-record set, and the query multiplexer with its
merge and recursion helpers.  Go maps are embedded as functions into
`Option`, Go byte slices as `List Nat`, Go `time.Duration` (int64
nanoseconds) as `Int`, and Go run-time panics as `Option.none` results.
-/

namespace DnsSpec

/-- DNS RR type identifier (Go `Type`, a uint16). -/
abbrev DnsType := Nat

def TypeA : DnsType := 1
def TypeNS : DnsType := 2
def TypeCNAME : DnsType := 5
def TypeSOA : DnsType := 6
def TypePTR : DnsType := 12
def TypeMX : DnsType := 15
def TypeTXT : DnsType := 16
def TypeAAAA : DnsType := 28
def TypeSRV : DnsType := 33
def TypeDNAME : DnsType := 39
def TypeOPT : DnsType := 41
def TypeCAA : DnsType := 257
def TypeANY : DnsType := 0

/-- DNS response codes (Go `RCode`). -/
def NoError : Nat := 0
def ServFail : Nat := 2
def NXDomain : Nat := 3

/-- Errors of the codec (Go sentinel error values in part_000). -/
inductive Err where
  | baseLen
  | calcLen
  | reserved
  | ptrCycle
  | invalidFQDN
  | invalidPtr
  | resourceLen
  | segTooLong
  | zeroSegLen
  | resTooLong
  | tooManyQuestions
  | tooManyAnswers
  | tooManyAuthorities
  | tooManyAdditionals
  | fieldOverflow
  | unknownType
  deriving DecidableEq, Repr

/-- Payload of a SOA record (Go `SOA`); durations are int64 nanoseconds. -/
structure SOAdata where
  ns : String
  mbox : String
  serial : Int
  refresh : Int
  retry : Int
  expire : Int
  minttl : Int
  deriving DecidableEq, Repr

/-- An EDNS option (Go `edns.Option`): a code and opaque data bytes. -/
structure EdnsOption where
  code : Nat
  data : List Nat
  deriving DecidableEq, Repr

/-- A DNS record (Go `Record` interface); one constructor per concrete
record type registered in `NewRecordByType`. -/
inductive Record where
  | a (ip : List Nat)
  | aaaa (ip : List Nat)
  | cname (target : String)
  | soa (d : SOAdata)
  | ptr (name : String)
  | mx (pref : Int) (host : String)
  | nsrec (host : String)
  | txt (txts : List String)
  | srv (priority weight port : Int) (target : String)
  | dname (target : String)
  | opt (options : List EdnsOption)
  | caa (critical : Bool) (tag value : String)
  deriving DecidableEq, Repr

/-- The `Type()` method of each record variant. -/
def Record.rtype : Record → DnsType
  | .a _ => TypeA
  | .aaaa _ => TypeAAAA
  | .cname _ => TypeCNAME
  | .soa _ => TypeSOA
  | .ptr _ => TypePTR
  | .mx _ _ => TypeMX
  | .nsrec _ => TypeNS
  | .txt _ => TypeTXT
  | .srv _ _ _ _ => TypeSRV
  | .dname _ => TypeDNAME
  | .opt _ => TypeOPT
  | .caa _ _ _ => TypeCAA

/-- The record-set map of a zone (Go `RRSet.m`,
`map[string]map[Type][]Record`).  An absent key is `none`; a Go inner map
is embedded as a total function defaulting to the empty list, matching the
Go semantics that indexing a nil map yields a nil slice. -/
def RRSet := String → Option (DnsType → List Record)

/-- Go `el.m[k]`: indexing the outer map yields the inner map, or a nil
map (here: the all-empty function) when the key is absent. -/
def RRSet.inner (m : RRSet) (k : String) : DnsType → List Record :=
  (m k).getD (fun _ => [])

/-- Go `RRSet.AppendRecordInKey` (typeRRSet.go lines 411-442): take the
current inner map for `k`; if the list stored under the record's type is
empty, replace the whole inner map by the singleton map for that type,
otherwise append to the list; store the result back under `k`. -/
def RRSet.AppendRecordInKey (m : RRSet) (k : String) (r : Record) : RRSet :=
  let New := RRSet.inner m k
  let rT := r.rtype
  let New' : DnsType → List Record :=
    if (New rT).length = 0 then
      fun t => if t = rT then [r] else []
    else
      fun t => if t = rT then New rT ++ [r] else New t
  fun k2 => if k2 = k then some New' else m k2

/-- An answer, authority, or additional entry as emitted through the
writer: owner name, TTL (int64 nanoseconds), and the record interface
value, which may be a nil pointer (hence `Option`). -/
abbrev Entry := String × Int × Option Record

/-- Modelled from the spec: the `MessageWriter` contract of section 4.6
(its implementation file is not under src/).  The writer accumulates the
reply state a handler builds: `Status` sets the rcode, `Authoritative`
sets AA, `Recursion` sets RA, and `Answer`, `Authority`, `Additional`
append one entry each to the corresponding section. -/
structure MessageWriter where
  aa : Bool
  ra : Bool
  rcode : Nat
  answers : List Entry
  authorities : List Entry
  additionals : List Entry
  deriving DecidableEq, Repr

/-- Writer op `Answer(name, ttl, record)`: append one answer entry. -/
def MessageWriter.answer (w : MessageWriter) (name : String) (ttl : Int)
    (r : Option Record) : MessageWriter :=
  { w with answers := w.answers ++ [(name, ttl, r)] }

/-- Writer op `Authority(name, ttl, record)`: append one authority entry. -/
def MessageWriter.authority (w : MessageWriter) (name : String) (ttl : Int)
    (r : Option Record) : MessageWriter :=
  { w with authorities := w.authorities ++ [(name, ttl, r)] }

/-- Writer op `Additional(name, ttl, record)`: append one entry. -/
def MessageWriter.additional (w : MessageWriter) (name : String) (ttl : Int)
    (r : Option Record) : MessageWriter :=
  { w with additionals := w.additionals ++ [(name, ttl, r)] }

/-- The fresh writer a server hands to a handler (spec section 4.6:
pre-populated with rcode NoError and empty sections). -/
def MessageWriter.initial : MessageWriter :=
  { aa := false, ra := false, rcode := NoError,
    answers := [], authorities := [], additionals := [] }

/-- Go `strings.HasSuffix(s, suffix)`. -/
def goHasSuffix (s sfx : String) : Bool :=
  sfx.data.isSuffixOf s.data

/-- Go string slicing `s[:hi]` where `hi` is a signed int expression: the
slice panics (here `none`) when `hi` is negative or exceeds the length. -/
def goSlice (s : String) (hi : Int) : Option String :=
  if 0 ≤ hi ∧ hi ≤ (s.length : Int) then some ⟨s.data.take hi.toNat⟩ else none

/-- A zone (zone.go): origin name, default TTL (nanoseconds), optional
SOA, and the record-set map. -/
structure Zone where
  origin : String
  ttl : Int
  soa : Option SOAdata
  rrs : RRSet

/-- A question (Go `Question`): name, type, class. -/
structure Question where
  name : String
  ty : DnsType
  class' : Nat
  deriving DecidableEq, Repr

/-- The CNAME-chasing step inside the answer loop of `Zone.ServeDNS`
(zone.go lines 130-139): when recursion is desired and the answered
record is a CNAME, strip the origin from the target (a Go slice that can
panic) and emit, under the target name, every record stored there for
the original question type. -/
def Zone.chase (z : Zone) (q : Question) (rd : Bool) (w : MessageWriter)
    (rr : Record) : Option MessageWriter :=
  if rd ∧ rr.rtype = TypeCNAME then
    match rr with
    | .cname target =>
      match goSlice target ((target.length : Int) - (z.origin.length : Int) - 1) with
      | none => none
      | some dn =>
        match z.rrs dn with
        | none => some w
        | some rrs2 =>
          some ((rrs2 q.ty).foldl (fun w2 rr2 => w2.answer target z.ttl (some rr2)) w)
    | _ => some w
  else some w

/-- The inner answer loop of `Zone.ServeDNS` (zone.go lines 126-140):
emit each stored record of the question's type as an answer, set the
`found` flag, and chase CNAMEs. -/
def Zone.serveRecs (z : Zone) (q : Question) (rd : Bool) :
    List Record → MessageWriter × Bool → Option (MessageWriter × Bool)
  | [], st => some st
  | rr :: rest, (w, _) =>
    let w1 := w.answer q.name z.ttl (some rr)
    match z.chase q rd w1 rr with
    | none => none
    | some w2 => z.serveRecs q rd rest (w2, true)

/-- One iteration of the question loop of `Zone.ServeDNS` (zone.go lines
108-141).  A `none` state (an earlier panic) propagates; stripping the
origin from the question name is a Go slice that panics when the name
equals the origin. -/
def Zone.serveQuestion (z : Zone) (rd : Bool)
    (st : Option (MessageWriter × Bool)) (q : Question) :
    Option (MessageWriter × Bool) :=
  match st with
  | none => none
  | some (w, found) =>
    if ¬ goHasSuffix q.name z.origin then some (w, found)
    else if q.ty = TypeSOA ∧ q.name = z.origin then
      some (w.answer q.name z.ttl (z.soa.map Record.soa), true)
    else
      match goSlice q.name ((q.name.length : Int) - (z.origin.length : Int) - 1) with
      | none => none
      | some dn =>
        match z.rrs dn with
        | none => some (w, found)
        | some rrs => z.serveRecs q rd (rrs q.ty) (w, found)

/-- Go `Zone.ServeDNS` (zone.go lines 104-150): set AA, answer each
question under the origin, and on no answer set NXDomain and emit the SOA
(when present) as the sole authority record.  The result is `none` when
the Go code would panic. -/
def Zone.serveDNS (z : Zone) (questions : List Question) (rd : Bool) :
    Option MessageWriter :=
  let w0 : MessageWriter := { MessageWriter.initial with aa := true }
  match questions.foldl (z.serveQuestion rd) (some (w0, false)) with
  | none => none
  | some (w, found) =>
    if found then some w
    else
      let w1 := { w with rcode := NXDomain }
      some (match z.soa with
            | none => w1
            | some s => w1.authority z.origin z.ttl (some (.soa s)))

/-- A resource record (Go `Resource`): owner name, class, TTL (int64
nanoseconds), and the polymorphic record. -/
structure Resource where
  name : String
  class' : Nat
  ttl : Int
  record : Record
  deriving DecidableEq, Repr

/-- A DNS message (Go `Message`). -/
structure Message where
  id : Int
  response : Bool
  opCode : Nat
  authoritative : Bool
  truncated : Bool
  recursionDesired : Bool
  recursionAvailable : Bool
  rcode : Nat
  questions : List Question
  answers : List Resource
  authorities : List Resource
  additionals : List Resource
  deriving DecidableEq, Repr

/-- Big-endian 16-bit encoding (Go `binary.BigEndian.PutUint16`). -/
def u16be (n : Nat) : List Nat := [n / 256 % 256, n % 256]

/-- Big-endian 32-bit encoding (Go `binary.BigEndian.PutUint32`). -/
def u32be (n : Nat) : List Nat :=
  [n / 16777216 % 256, n / 65536 % 256, n / 256 % 256, n % 256]

/-- Go `uint16(x)` for a signed int `x`: reduction modulo 2^16. -/
def goUint16ofInt (x : Int) : Nat := (x.emod 65536).toNat

/-- Go `Message.packHeader` (part_000 lines 219-280), including the slip
at lines 267-270 where the additionals count is validated by re-checking
the authorities count. -/
def Message.packHeader (m : Message) (b : List Nat) : Except Err (List Nat) :=
  let id := goUint16ofInt m.id
  if (id : Int) ≠ m.id then .error .fieldOverflow
  else
  let opcode := m.opCode % 16
  if opcode ≠ m.opCode then .error .fieldOverflow
  else
  let rcode := m.rcode % 16
  if rcode ≠ m.rcode then .error .fieldOverflow
  else
  let bits := opcode * 2048 + rcode
    + (if m.response then 32768 else 0)
    + (if m.recursionAvailable then 128 else 0)
    + (if m.recursionDesired then 256 else 0)
    + (if m.truncated then 512 else 0)
    + (if m.authoritative then 1024 else 0)
  let qdcount := m.questions.length % 65536
  if qdcount ≠ m.questions.length then .error .tooManyQuestions
  else
  let ancount := m.answers.length % 65536
  if ancount ≠ m.answers.length then .error .tooManyAnswers
  else
  let nscount := m.authorities.length % 65536
  if nscount ≠ m.authorities.length then .error .tooManyAuthorities
  else
  let arcount := m.additionals.length % 65536
  if nscount ≠ m.authorities.length then .error .tooManyAuthorities
  else
  .ok (b ++ u16be id ++ u16be bits ++ u16be qdcount ++ u16be ancount
         ++ u16be nscount ++ u16be arcount)

/-- The packing side of a name compressor (Go `Compressor` interface):
`lengthName` is the variadic `Length(...string)` callback and `packName`
is `Pack(b, fqdn)`. -/
structure Compressor where
  lengthName : List String → Except Err Nat
  packName : List Nat → String → Except Err (List Nat)

/-- Dot-splitting of a presentation-form name (Go `strings.Split`). -/
def splitLabels : List Char → List Char → List (List Char)
  | [], acc => [acc.reverse]
  | c :: rest, acc =>
    if c = '.' then acc.reverse :: splitLabels rest []
    else splitLabels rest (c :: acc)

/-- Literal wire bytes of a name in presentation form: every label up to
the first empty one as a length-prefixed run, then the terminating zero
label. -/
def nameLiteral (name : String) : List Nat :=
  ((splitLabels name.data []).takeWhile (fun l => l ≠ [])).foldr
    (fun l acc => (l.length :: l.map Char.toNat) ++ acc) [0]

/-- Modelled from the spec: the non-compressing packer (`compressor{}`,
whose source file is not under src/); section 4.1: emit the labels
literally and fail with InvalidFQDN when the literal bytes alone exceed
255 octets. -/
def packNameNoCompress (b : List Nat) (name : String) : Except Err (List Nat) :=
  let lit := nameLiteral name
  if lit.length > 255 then .error .invalidFQDN else .ok (b ++ lit)

/-- Modelled from the spec: length of one name under the non-compressing
packer is its literal encoded length (section 4.1). -/
def lengthNameNoCompress (names : List String) : Except Err Nat :=
  let lens := names.map (fun n => (nameLiteral n).length)
  if lens.any (fun l => l > 255) then .error .invalidFQDN else .ok lens.sum

/-- Modelled from the spec: the zero-value compressor `compressor{}`,
which packs without compressing. -/
def compressorEmpty : Compressor :=
  { lengthName := lengthNameNoCompress, packName := packNameNoCompress }

/-- Go `net.IP.To4`: the 4-byte form of an IPv4 or IPv4-mapped address,
and nil (here the empty list) otherwise. -/
def ipTo4 (ip : List Nat) : List Nat :=
  if ip.length = 4 then ip
  else if ip.length = 16 ∧ ip.take 10 = List.replicate 10 0
       ∧ ip.get? 10 = some 255 ∧ ip.get? 11 = some 255 then ip.drop 12
  else []

/-- Go `Option.Length` of an EDNS option (modelled from the spec,
section 6: u16 code, u16 length, then the data bytes). -/
def EdnsOption.olength (o : EdnsOption) : Nat := 4 + o.data.length

/-- The `Length(com)` method of each record variant (part_000). -/
def recordLength (r : Record) (com : Compressor) : Except Err Nat :=
  match r with
  | .a _ => .ok 4
  | .aaaa _ => .ok 16
  | .cname n => com.lengthName [n]
  | .soa d => (com.lengthName [d.ns, d.mbox]).map (· + 20)
  | .ptr n => com.lengthName [n]
  | .mx _ n => (com.lengthName [n]).map (· + 2)
  | .nsrec n => com.lengthName [n]
  | .txt txts => .ok (txts.foldl (fun n s => n + 1 + s.length) 0)
  | .srv _ _ _ target => (compressorEmpty.lengthName [target]).map (· + 6)
  | .dname n => com.lengthName [n]
  | .opt options => .ok (options.foldl (fun n o => n + o.olength) 0)
  | .caa _ tag value => .ok (2 + tag.length + value.length)

/-- Go `int32(d / time.Second)` style second counts in `SOA.Pack`:
truncating division by 10^9, then reduction into int32 range. -/
def goSecsTdiv (d : Int) : Int := Int.tdiv d 1000000000

/-- Go `uint16(x)` overflow test helper: `int(uint16(x)) != x`. -/
def fitsU16 (x : Int) : Bool := 0 ≤ x ∧ x < 65536

/-- The `Pack(b, com)` method of each record variant (part_000). -/
def recordPack (r : Record) (b : List Nat) (com : Compressor) :
    Except Err (List Nat) :=
  match r with
  | .a ip =>
    if ip.length < 4 then .error .resourceLen else .ok (b ++ ipTo4 ip)
  | .aaaa ip =>
    if ip.length ≠ 16 then .error .resourceLen else .ok (b ++ ip)
  | .cname n => com.packName b n
  | .soa d =>
    match com.packName b d.ns with
    | .error e => .error e
    | .ok b1 =>
      match com.packName b1 d.mbox with
      | .error e => .error e
      | .ok b2 =>
        let serial := (d.serial.emod 4294967296).toNat
        let refresh := goSecsTdiv d.refresh
        let retry := goSecsTdiv d.retry
        let expire := goSecsTdiv d.expire
        let minimum := goSecsTdiv d.minttl
        if (serial : Int) ≠ d.serial then .error .fieldOverflow
        else if ¬ (-2147483648 ≤ refresh ∧ refresh < 2147483648) then .error .fieldOverflow
        else if ¬ (-2147483648 ≤ retry ∧ retry < 2147483648) then .error .fieldOverflow
        else if ¬ (-2147483648 ≤ expire ∧ expire < 2147483648) then .error .fieldOverflow
        else if ¬ (0 ≤ minimum ∧ minimum < 4294967296) then .error .fieldOverflow
        else .ok (b2 ++ u32be serial ++ u32be (refresh.emod 4294967296).toNat
                     ++ u32be (retry.emod 4294967296).toNat
                     ++ u32be (expire.emod 4294967296).toNat
                     ++ u32be minimum.toNat)
  | .ptr n => com.packName b n
  | .mx pref n =>
    if ¬ fitsU16 pref then .error .fieldOverflow
    else com.packName (b ++ u16be pref.toNat) n
  | .nsrec n => com.packName b n
  | .txt txts =>
    txts.foldlM (fun acc s =>
      if s.length > 255 then .error .segTooLong
      else .ok (acc ++ (s.length :: s.data.map Char.toNat))) b
  | .srv priority weight port target =>
    if ¬ fitsU16 priority then .error .fieldOverflow
    else if ¬ fitsU16 weight then .error .fieldOverflow
    else if ¬ fitsU16 port then .error .fieldOverflow
    else compressorEmpty.packName
      (b ++ u16be priority.toNat ++ u16be weight.toNat ++ u16be port.toNat) target
  | .dname n => com.packName b n
  | .opt options =>
    .ok (options.foldl
      (fun acc o => acc ++ u16be o.code ++ u16be o.data.length ++ o.data) b)
  | .caa critical tag value =>
    if tag.length = 0 then .error .zeroSegLen
    else if tag.length > 255 then .error .segTooLong
    else .ok (b ++ ((if critical then 1 else 0) :: tag.length ::
                    (tag.data.map Char.toNat ++ value.data.map Char.toNat)))

/-- Go `Resource.Pack` (part_000 lines 378-413): pack the owner name,
validate the TTL as a 32-bit unsigned second count, compute and validate
the RDATA length, emit the fixed fields, then pack the record. -/
def Resource.Pack (r : Resource) (b : List Nat) (com : Compressor) :
    Except Err (List Nat) :=
  match com.packName b r.name with
  | .error e => .error e
  | .ok b1 =>
    let rtype := r.record.rtype
    let secs := Int.tdiv r.ttl 1000000000
    let ttl := (secs.emod 4294967296).toNat
    if (ttl : Int) ≠ secs then .error .fieldOverflow
    else
      match recordLength r.record com with
      | .error e => .error e
      | .ok rlen =>
        let rdatalen := rlen % 65536
        if rdatalen ≠ rlen then .error .fieldOverflow
        else recordPack r.record
          (b1 ++ u16be rtype ++ u16be r.class' ++ u32be ttl ++ u16be rdatalen) com

/-- The unpacking side of a name decompressor (Go `Decompressor`):
`unpackName b` yields the decoded name and the unread remainder of `b`. -/
structure Decompressor where
  unpackName : List Nat → Except Err (String × List Nat)

/-- Label reader used by the nil decompressor: read length-prefixed
labels until the zero label; fuel is the buffer length, which bounds the
number of labels. -/
def readLabels : Nat → List Nat → String → Except Err (String × List Nat)
  | _, [], _ => .error .baseLen
  | 0, _ :: _, _ => .error .ptrCycle
  | fuel + 1, n :: rest, acc =>
    if n = 0 then .ok ((if acc = "" then "." else acc), rest)
    else if n ≥ 192 then .error .invalidPtr
    else if n ≥ 64 then .error .reserved
    else if rest.length < n then .error .calcLen
    else readLabels fuel (rest.drop n)
      (acc ++ ⟨(rest.take n).map Char.ofNat⟩ ++ ".")

/-- Modelled from the spec: the pointerless name decoder
(`decompressor(nil)`, whose source file is not under src/); section 4.1:
assemble length-prefixed labels, reject reserved prefixes and pointers
that cannot refer to an earlier offset of an empty base. -/
def decompressorNil : Decompressor :=
  { unpackName := fun b => readLabels (b.length + 1) b "" }

/-- Big-endian 16-bit read at offset `i` (Go `binary.BigEndian.Uint16`). -/
def u16at (b : List Nat) (i : Nat) : Nat :=
  (b.get? i).getD 0 % 256 * 256 + (b.get? (i + 1)).getD 0 % 256

/-- Big-endian 32-bit read at offset `i` (Go `binary.BigEndian.Uint32`). -/
def u32at (b : List Nat) (i : Nat) : Nat :=
  u16at b i * 65536 + u16at b (i + 2)

/-- Go `int32(u)` of a uint32 value: two's-complement reinterpretation. -/
def toInt32 (n : Nat) : Int :=
  if n < 2147483648 then (n : Int) else (n : Int) - 4294967296

/-- TXT segment reader (`TXT.Unpack` loop): fuel is the buffer length. -/
def readTxts : Nat → List Nat → List String → Except Err (List String)
  | _, [], acc => .ok acc.reverse
  | 0, _ :: _, _ => .error .resourceLen
  | fuel + 1, n :: rest, acc =>
    if rest.length < n then .error .resourceLen
    else readTxts fuel (rest.drop n) (⟨(rest.take n).map Char.ofNat⟩ :: acc)

/-- EDNS option list reader for `OPT.Unpack` (the `edns` package is not
under src/; modelled from the spec, section 6: u16 code, u16 length,
then the data). -/
def readOptions : Nat → List Nat → List EdnsOption → Except Err (List EdnsOption)
  | _, [], acc => .ok acc.reverse
  | 0, _ :: _, _ => .error .resourceLen
  | fuel + 1, b@(_ :: _), acc =>
    if b.length < 4 then .error .resourceLen
    else
      let dlen := u16at b 2
      if (b.drop 4).length < dlen then .error .resourceLen
      else readOptions fuel ((b.drop 4).drop dlen)
        ({ code := u16at b 0, data := (b.drop 4).take dlen } :: acc)

/-- The `Unpack(b, dec)` method of each record variant (part_000),
returning the decoded record and the unread remainder of its input. -/
def recordUnpack (t : DnsType) (b : List Nat) (dec : Decompressor) :
    Except Err (Record × List Nat) :=
  if t = TypeA then
    if b.length < 4 then .error .resourceLen
    else .ok (.a (b.take 4), b.drop 4)
  else if t = TypeNS then
    (dec.unpackName b).map (fun (n, rest) => (.nsrec n, rest))
  else if t = TypeCNAME then
    (dec.unpackName b).map (fun (n, rest) => (.cname n, rest))
  else if t = TypeSOA then
    match dec.unpackName b with
    | .error e => .error e
    | .ok (ns, b1) =>
      match dec.unpackName b1 with
      | .error e => .error e
      | .ok (mbox, b2) =>
        if b2.length < 20 then .error .resourceLen
        else .ok (.soa { ns := ns, mbox := mbox,
                         serial := (u32at b2 0 : Int),
                         refresh := toInt32 (u32at b2 4) * 1000000000,
                         retry := toInt32 (u32at b2 8) * 1000000000,
                         expire := toInt32 (u32at b2 12) * 1000000000,
                         minttl := (u32at b2 16 : Int) * 1000000000 },
                  b2.drop 20)
  else if t = TypePTR then
    (dec.unpackName b).map (fun (n, rest) => (.ptr n, rest))
  else if t = TypeMX then
    if b.length < 2 then .error .resourceLen
    else (dec.unpackName (b.drop 2)).map
      (fun (n, rest) => (.mx (u16at b 0 : Int) n, rest))
  else if t = TypeTXT then
    (readTxts (b.length + 1) b []).map (fun txts => (.txt txts, []))
  else if t = TypeAAAA then
    if b.length < 16 then .error .resourceLen
    else .ok (.aaaa (b.take 16), b.drop 16)
  else if t = TypeSRV then
    if b.length < 6 then .error .resourceLen
    else (decompressorNil.unpackName (b.drop 6)).map
      (fun (n, rest) =>
        (.srv (u16at b 0 : Int) (u16at b 2 : Int) (u16at b 4 : Int) n, rest))
  else if t = TypeDNAME then
    (dec.unpackName b).map (fun (n, rest) => (.dname n, rest))
  else if t = TypeOPT then
    (readOptions (b.length + 1) b []).map (fun os => (.opt os, b.drop b.length))
  else if t = TypeCAA then
    if b.length < 2 then .error .resourceLen
    else
      let tagLength := (b.get? 1).getD 0
      if tagLength = 0 then .error .zeroSegLen
      else if 2 + tagLength > b.length then .error .resourceLen
      else .ok (.caa ((b.get? 0).getD 0 % 2 = 1)
                     ⟨((b.drop 2).take tagLength).map Char.ofNat⟩
                     ⟨((b.drop 2).drop tagLength).map Char.ofNat⟩, [])
  else .error .unknownType

/-- The domain of Go's `NewRecordByType` registry: the record types that
have a registered constructor. -/
def registeredType (t : DnsType) : Bool :=
  t = TypeA ∨ t = TypeNS ∨ t = TypeCNAME ∨ t = TypeSOA ∨ t = TypePTR
    ∨ t = TypeMX ∨ t = TypeTXT ∨ t = TypeAAAA ∨ t = TypeSRV ∨ t = TypeDNAME
    ∨ t = TypeOPT ∨ t = TypeCAA

/-- Go `Resource.Unpack` (part_000 lines 416-451): decode the owner name
and fixed fields, bound the RDATA window by RDLENGTH, look up the
constructor by type, unpack on exactly the window, and reject a window
that was not fully consumed. -/
def Resource.Unpack (dec : Decompressor) (b : List Nat) :
    Except Err (Resource × List Nat) :=
  match dec.unpackName b with
  | .error e => .error e
  | .ok (name, b1) =>
    if b1.length < 10 then .error .resourceLen
    else
      let rtype := u16at b1 0
      let cls := u16at b1 2
      let ttl := (u32at b1 4 : Int) * 1000000000
      let rdlen := u16at b1 8
      let b2 := b1.drop 10
      if b2.length < rdlen then .error .resourceLen
      else if ¬ registeredType rtype then .error .unknownType
      else
        match recordUnpack rtype (b2.take rdlen) dec with
        | .error e => .error e
        | .ok (rec, buf) =>
          if buf.length > 0 then .error .resTooLong
          else .ok ({ name := name, class' := cls, ttl := ttl, record := rec },
                    b2.drop rdlen)

/-- Go `mergeRequests` (handler.go lines 320-326): take the larger
opcode, OR the recursion-desired flags, and prepend the merged-in
request's questions. -/
def mergeRequests (dst fr : Message) : Message :=
  { dst with
    opCode := if fr.opCode > dst.opCode then fr.opCode else dst.opCode,
    recursionDesired := dst.recursionDesired || fr.recursionDesired,
    questions := fr.questions ++ dst.questions }

/-- A mux table entry (Go `muxEntry`): question type, name suffix, and
the registered handler, identified opaquely. -/
structure MuxEntry where
  typ : DnsType
  sfx : String
  h : Nat
  deriving DecidableEq, Repr

/-- The outcome of a mux lookup: a registered entry, or the default
recursive handler. -/
inductive LookupResult where
  | entry (e : MuxEntry)
  | recursiveDefault
  deriving DecidableEq, Repr

/-- Whether a table entry matches a question (`ResolveMux.lookup` body):
the entry type equals the question type or is ANY, and the entry suffix
ends the question name. -/
def entryMatches (e : MuxEntry) (q : Question) : Bool :=
  (e.typ = q.ty ∨ e.typ = TypeANY) ∧ goHasSuffix q.name e.sfx

/-- Go `ResolveMux.lookup` (handler.go lines 234-245): scan the table in
registration order and return the first matching entry's handler, or the
default `recursiveHandler`. -/
def ResolveMux.lookup : List MuxEntry → Question → LookupResult
  | [], _ => .recursiveDefault
  | e :: rest, q =>
    if entryMatches e q then .entry e else ResolveMux.lookup rest q

/-- Writer op `Status(rcode)`. -/
def MessageWriter.status (w : MessageWriter) (rc : Nat) : MessageWriter :=
  { w with rcode := rc }

/-- Writer op `Authoritative(bool)`. -/
def MessageWriter.setAA (w : MessageWriter) (b : Bool) : MessageWriter :=
  { w with aa := b }

/-- Writer op `Recursion(bool)`, which sets RA. -/
def MessageWriter.setRA (w : MessageWriter) (b : Bool) : MessageWriter :=
  { w with ra := b }

/-- Modelled from the spec: `writeMessage` (its source file is not under
src/); section 4.8: copy every field of the message — rcode,
authoritative, recursion-available, and all four sections — into the
writer. -/
def writeMessage (w : MessageWriter) (msg : Message) : MessageWriter :=
  { w with
    rcode := msg.rcode,
    aa := msg.authoritative,
    ra := msg.recursionAvailable,
    answers := w.answers ++ msg.answers.map (fun r => (r.name, r.ttl, some r.record)),
    authorities := w.authorities ++ msg.authorities.map (fun r => (r.name, r.ttl, some r.record)),
    additionals := w.additionals ++ msg.additionals.map (fun r => (r.name, r.ttl, some r.record)) }

/-- Go `Recursor` (handler.go lines 136-145), with the outcome of
`w.Recur(ctx)` passed explicitly: on error set ServFail and return, on
success copy the upstream message into the writer. -/
def Recursor (w : MessageWriter) (recurResult : Except Err Message) :
    MessageWriter :=
  match recurResult with
  | .error _ => w.status ServFail
  | .ok msg => writeMessage w msg

/-- Go `recursiveHandler` (handler.go lines 212-232), with the outcome
of `w.Recur(ctx)` passed explicitly: on error set ServFail and return;
on success copy rcode, AA and RA, then append every upstream answer,
authority, and additional. -/
def recursiveHandler (w : MessageWriter) (recurResult : Except Err Message) :
    MessageWriter :=
  match recurResult with
  | .error _ => w.status ServFail
  | .ok msg =>
    let w1 := (((w.status msg.rcode)).setAA msg.authoritative).setRA msg.recursionAvailable
    let w2 := msg.answers.foldl (fun acc r => acc.answer r.name r.ttl (some r.record)) w1
    let w3 := msg.authorities.foldl (fun acc r => acc.authority r.name r.ttl (some r.record)) w2
    msg.additionals.foldl (fun acc r => acc.additional r.name r.ttl (some r.record)) w3

/-- C7: merging a predecessor's request into a sub-writer's request
yields the union of the two question lists (every question of either
request, and nothing else), the maximum of the two opcodes, and the OR
of the two recursion-desired flags. -/
theorem mergeRequests_union_max_or (dst fr : Message) :
    (mergeRequests dst fr).questions = fr.questions ++ dst.questions ∧
    (∀ q : Question, q ∈ (mergeRequests dst fr).questions ↔
      q ∈ dst.questions ∨ q ∈ fr.questions) ∧
    (mergeRequests dst fr).opCode = max dst.opCode fr.opCode ∧
    (mergeRequests dst fr).recursionDesired
      = (dst.recursionDesired || fr.recursionDesired) := by
  refine ⟨rfl, fun q => ?_, ?_, rfl⟩
  · simp [mergeRequests, List.mem_append, or_comm]
  · simp only [mergeRequests]
    split <;> omega

/-- C8: when the upstream recursion call returns an error, both the
Recursor handler and the default recursiveHandler set the reply's rcode
to ServFail and leave every section of the writer unchanged, emitting no
answer from the failed recursion. -/
theorem recur_error_sets_servfail (w : MessageWriter) (e : Err) :
    Recursor w (.error e) = w.status ServFail ∧
    recursiveHandler w (.error e) = w.status ServFail ∧
    (Recursor w (.error e)).rcode = ServFail ∧
    (Recursor w (.error e)).answers = w.answers ∧
    (recursiveHandler w (.error e)).rcode = ServFail ∧
    (recursiveHandler w (.error e)).answers = w.answers :=
  ⟨rfl, rfl, rfl, rfl, rfl, rfl⟩

/-- A message whose additionals section has 65536 entries and whose
other sections are empty. -/
def msgC1 : Message :=
  { id := 0, response := false, opCode := 0, authoritative := false,
    truncated := false, recursionDesired := false, recursionAvailable := false,
    rcode := 0, questions := [], answers := [], authorities := [],
    additionals := List.replicate 65536
      { name := "", class' := 0, ttl := 0, record := .a [] } }

/-- C1: `packHeader` validates the additionals count by re-checking the
authorities count, so a message with 65536 additionals packs without
error and its ARCOUNT field (the last two header bytes) is 0, not the
section length. -/
theorem packHeader_misses_additionals_overflow :
    msgC1.additionals.length = 65536 ∧
    msgC1.packHeader [] = .ok [0, 0, 0, 0, 0, 0, 0, 0, 0, 0, 0, 0] := by
  have hlen : msgC1.additionals.length = 65536 := by
    rw [show msgC1.additionals = List.replicate 65536
          { name := "", class' := 0, ttl := 0, record := .a [] } from rfl,
        List.length_replicate]
  refine ⟨hlen, ?_⟩
  simp only [Message.packHeader, hlen]
  norm_num [msgC1, goUint16ofInt, u16be]

/-- The zone used for the apex-question run-time failure. -/
def zoneC3 : Zone :=
  { origin := "tld.", ttl := 0, soa := none, rrs := fun _ => none }

/-- C3: a question whose name equals the zone origin exactly and whose
type is not SOA drives `Zone.ServeDNS` into the slice
`q.Name[:len(q.Name)-len(z.Origin)-1]` with a negative bound, a Go
run-time panic (modelled as `none`). -/
theorem serveDNS_panics_on_origin_name :
    Zone.serveDNS zoneC3 [{ name := "tld.", ty := TypeA, class' := 1 }] false
      = none := by rfl

/-- C5 amendment: `AppendRecordInKey` leaves every other key unchanged;
when the list stored under `k` for the record's type is non-empty it
appends the record there and leaves the other types' lists unchanged,
but when that list is empty the whole inner map of `k` is replaced by
the singleton map, clearing every other type's list. -/
theorem appendRecordInKey_frame (m : RRSet) (k : String) (r : Record) :
    (∀ k2, k2 ≠ k → RRSet.AppendRecordInKey m k r k2 = m k2) ∧
    (RRSet.inner m k r.rtype ≠ [] →
      RRSet.AppendRecordInKey m k r k = some (fun t =>
        if t = r.rtype then RRSet.inner m k r.rtype ++ [r]
        else RRSet.inner m k t)) ∧
    (RRSet.inner m k r.rtype = [] →
      RRSet.AppendRecordInKey m k r k = some (fun t =>
        if t = r.rtype then [r] else [])) := by
  refine ⟨fun k2 hk2 => ?_, fun hne => ?_, fun he => ?_⟩
  · simp [RRSet.AppendRecordInKey, hk2]
  · simp [RRSet.AppendRecordInKey, List.length_eq_zero, hne]
  · simp [RRSet.AppendRecordInKey, List.length_eq_zero, he]

/-- The record-set used for the C5 counterexample: one key holding one
CNAME record and nothing else. -/
def rrsC5 : RRSet := fun k =>
  if k = "app" then some (fun t => if t = TypeCNAME then [.cname "x."] else [])
  else none

/-- C5 counterexample: appending an A record under a key that stores a
CNAME but no A records clears the CNAME list, so a sequence of another
type does not stay unchanged. -/
theorem appendRecordInKey_clears_other_type :
    (RRSet.AppendRecordInKey rrsC5 "app" (.a [1, 2, 3, 4])).inner "app" TypeCNAME = []
    ∧ rrsC5.inner "app" TypeCNAME = [.cname "x."] :=
  ⟨rfl, rfl⟩

/-- C5 witness: a concrete non-empty case of the amended statement. -/
theorem appendRecordInKey_frame_witness :
    RRSet.inner rrsC5 "app" (Record.cname "y.").rtype ≠ [] ∧
    RRSet.AppendRecordInKey rrsC5 "app" (.cname "y.") "app" = some (fun t =>
      if t = (Record.cname "y.").rtype
      then RRSet.inner rrsC5 "app" (Record.cname "y.").rtype ++ [.cname "y."]
      else RRSet.inner rrsC5 "app" t) :=
  ⟨by decide, (appendRecordInKey_frame rrsC5 "app" (.cname "y.")).2.1 (by decide)⟩

/-- C6: mux lookup returns the default recursive handler when no table
entry matches, and otherwise the first entry, in registration order,
whose type equals the question type or is ANY and whose suffix ends the
question name. -/
theorem mux_lookup_first_match (tbl : List MuxEntry) (q : Question) :
    ((∀ e ∈ tbl, entryMatches e q = false) →
      ResolveMux.lookup tbl q = .recursiveDefault) ∧
    (∀ i (hi : i < tbl.length), entryMatches (tbl.get ⟨i, hi⟩) q = true →
      (∀ j (hj : j < tbl.length), j < i → entryMatches (tbl.get ⟨j, hj⟩) q = false) →
      ResolveMux.lookup tbl q = .entry (tbl.get ⟨i, hi⟩)) := by
  induction tbl with
  | nil =>
    exact ⟨fun _ => rfl, fun i hi => absurd hi (by simp)⟩
  | cons e rest ih =>
    constructor
    · intro hall
      have he := hall e (by simp)
      simp only [ResolveMux.lookup, he]
      exact (ih.1 fun e2 he2 => hall e2 (by simp [he2]))
    · intro i hi hmatch hbefore
      match i with
      | 0 =>
        simp only [List.get] at hmatch ⊢
        simp [ResolveMux.lookup, hmatch]
      | i + 1 =>
        have he : entryMatches e q = false := by
          have := hbefore 0 (by simp) (by omega)
          simpa using this
        simp only [List.get] at hmatch ⊢
        simp only [ResolveMux.lookup, he, Bool.false_eq_true, if_false]
        exact ih.2 i (by simpa using hi) hmatch
          (fun j hj hji => by
            have := hbefore (j + 1) (by simpa using hj) (by omega)
            simpa using this)

/-- Entries and question for the C6 witness. -/
def entC6a : MuxEntry := { typ := TypeA, sfx := "other.", h := 1 }

def entC6b : MuxEntry := { typ := TypeANY, sfx := "xip.io.", h := 2 }

def qC6 : Question := { name := "foo.xip.io.", ty := TypeA, class' := 1 }

/-- C6 witness: with a first entry whose suffix does not match and a
second ANY entry whose suffix does, lookup selects the second entry. -/
theorem mux_lookup_first_match_witness :
    ResolveMux.lookup [entC6a, entC6b] qC6 = .entry entC6b := by
  have h := (mux_lookup_first_match [entC6a, entC6b] qC6).2 1 (by decide)
    (by decide)
    (fun j hj hji => by
      have hj0 : j = 0 := by omega
      subst hj0
      show entryMatches entC6a qC6 = false
      decide)
  simpa using h

lemma foldl_answer_eq (w : MessageWriter) (name : String) (ttl : Int)
    (l : List Record) :
    l.foldl (fun w2 rr2 => w2.answer name ttl (some rr2)) w
      = { w with answers := w.answers ++ l.map (fun rr2 => (name, ttl, some rr2)) } := by
  induction l generalizing w with
  | nil => simp
  | cons rr rest ih =>
    rw [List.foldl_cons, ih]
    simp [MessageWriter.answer]

lemma chase_some (z : Zone) (q : Question) (rd : Bool) (w w' : MessageWriter)
    (rr : Record) (h : z.chase q rd w rr = some w') :
    w'.aa = w.aa ∧ w'.ra = w.ra ∧ w'.rcode = w.rcode ∧
    w'.authorities = w.authorities ∧ ∃ l, w'.answers = w.answers ++ l := by
  unfold Zone.chase at h
  split at h
  · split at h
    · split at h
      · cases h
      · split at h
        · obtain rfl := Option.some.inj h
          exact ⟨rfl, rfl, rfl, rfl, [], by simp⟩
        · obtain rfl := Option.some.inj h
          rw [foldl_answer_eq]
          exact ⟨rfl, rfl, rfl, rfl, _, rfl⟩
    · obtain rfl := Option.some.inj h
      exact ⟨rfl, rfl, rfl, rfl, [], by simp⟩
  · obtain rfl := Option.some.inj h
    exact ⟨rfl, rfl, rfl, rfl, [], by simp⟩

lemma serveRecs_inv (z : Zone) (q : Question) (rd : Bool) :
    ∀ (recs : List Record) (w : MessageWriter) (f : Bool)
      (w' : MessageWriter) (f' : Bool),
      z.serveRecs q rd recs (w, f) = some (w', f') →
      w'.aa = w.aa ∧ w'.rcode = w.rcode ∧ w'.authorities = w.authorities ∧
      ∃ l, w'.answers = w.answers ++ l ∧
        ((recs = [] ∧ l = [] ∧ f' = f) ∨ (recs ≠ [] ∧ l ≠ [] ∧ f' = true)) := by
  intro recs
  induction recs with
  | nil =>
    intro w f w' f' h
    rw [Zone.serveRecs] at h
    obtain ⟨rfl, rfl⟩ := Prod.ext_iff.mp (Option.some.inj h)
    exact ⟨rfl, rfl, rfl, [], by simp⟩
  | cons rr rest ih =>
    intro w f w' f' h
    rw [Zone.serveRecs] at h
    cases hc : z.chase q rd (w.answer q.name z.ttl (some rr)) rr with
    | none => rw [hc] at h; exact Option.noConfusion h
    | some w2 =>
      rw [hc] at h
      dsimp only at h
      obtain ⟨haa2, _, hrc2, haut2, l2, hl2⟩ := chase_some z q rd _ w2 rr hc
      obtain ⟨haa, hrc, haut, l3, hl3, hcase⟩ := ih w2 true w' f' h
      have hf' : f' = true := by
        rcases hcase with ⟨_, _, rfl⟩ | ⟨_, _, rfl⟩ <;> rfl
      refine ⟨by rw [haa, haa2]; rfl, by rw [hrc, hrc2]; rfl,
        by rw [haut, haut2]; rfl, (q.name, z.ttl, some rr) :: (l2 ++ l3), ?_, ?_⟩
      · rw [hl3, hl2]
        simp [MessageWriter.answer]
      · exact Or.inr ⟨by simp, by simp, hf'⟩

lemma serveQuestion_inv (z : Zone) (rd : Bool) (q : Question)
    (w : MessageWriter) (f : Bool) (w' : MessageWriter) (f' : Bool)
    (h : z.serveQuestion rd (some (w, f)) q = some (w', f')) :
    w'.aa = w.aa ∧ w'.rcode = w.rcode ∧ w'.authorities = w.authorities ∧
    ∃ l, w'.answers = w.answers ++ l ∧
      ((l = [] ∧ f' = f) ∨ (l ≠ [] ∧ f' = true)) := by
  unfold Zone.serveQuestion at h
  dsimp only at h
  split at h
  · obtain ⟨rfl, rfl⟩ := Prod.ext_iff.mp (Option.some.inj h)
    exact ⟨rfl, rfl, rfl, [], by simp⟩
  · split at h
    · obtain ⟨rfl, rfl⟩ := Prod.ext_iff.mp (Option.some.inj h)
      exact ⟨rfl, rfl, rfl, [(q.name, z.ttl, z.soa.map Record.soa)],
        by simp [MessageWriter.answer], Or.inr ⟨by simp, rfl⟩⟩
    · split at h
      · exact Option.noConfusion h
      · split at h
        · obtain ⟨rfl, rfl⟩ := Prod.ext_iff.mp (Option.some.inj h)
          exact ⟨rfl, rfl, rfl, [], by simp⟩
        · obtain ⟨haa, hrc, haut, l, hl, hcase⟩ :=
            serveRecs_inv z q rd _ w f w' f' h
          refine ⟨haa, hrc, haut, l, hl, ?_⟩
          rcases hcase with ⟨_, hl0, hf0⟩ | ⟨_, hl0, hf0⟩
          · exact Or.inl ⟨hl0, hf0⟩
          · exact Or.inr ⟨hl0, hf0⟩

lemma serveLoop_none (z : Zone) (rd : Bool) :
    ∀ qs : List Question, qs.foldl (z.serveQuestion rd) none = none := by
  intro qs
  induction qs with
  | nil => rfl
  | cons q rest ih => simpa [Zone.serveQuestion] using ih

lemma serveLoop_inv (z : Zone) (rd : Bool) :
    ∀ (qs : List Question) (w : MessageWriter) (f : Bool)
      (w' : MessageWriter) (f' : Bool),
      qs.foldl (z.serveQuestion rd) (some (w, f)) = some (w', f') →
      w'.aa = w.aa ∧ w'.rcode = w.rcode ∧ w'.authorities = w.authorities ∧
      ∃ l, w'.answers = w.answers ++ l ∧
        ((l = [] ∧ f' = f) ∨ (l ≠ [] ∧ f' = true)) := by
  intro qs
  induction qs with
  | nil =>
    intro w f w' f' h
    obtain ⟨rfl, rfl⟩ := Prod.ext_iff.mp (Option.some.inj h)
    exact ⟨rfl, rfl, rfl, [], by simp⟩
  | cons q rest ih =>
    intro w f w' f' h
    rw [List.foldl_cons] at h
    cases hst : z.serveQuestion rd (some (w, f)) q with
    | none => rw [hst, serveLoop_none] at h; exact Option.noConfusion h
    | some p =>
      obtain ⟨w1, f1⟩ := p
      rw [hst] at h
      obtain ⟨haa1, hrc1, haut1, l1, hl1, hcase1⟩ :=
        serveQuestion_inv z rd q w f w1 f1 hst
      obtain ⟨haa2, hrc2, haut2, l2, hl2, hcase2⟩ := ih w1 f1 w' f' h
      refine ⟨haa2.trans haa1, hrc2.trans hrc1, haut2.trans haut1,
        l1 ++ l2, by rw [hl2, hl1, List.append_assoc], ?_⟩
      rcases hcase1 with ⟨hl10, hf10⟩ | ⟨hl10, hf10⟩
      · subst hl10
        rcases hcase2 with ⟨hl20, hf20⟩ | ⟨hl20, hf20⟩
        · exact Or.inl ⟨by simp [hl20], hf20.trans hf10⟩
        · exact Or.inr ⟨by simpa using hl20, hf20⟩
      · rcases hcase2 with ⟨hl20, hf20⟩ | ⟨hl20, hf20⟩
        · subst hl20
          exact Or.inr ⟨by simpa using hl10, hf20.trans hf10⟩
        · exact Or.inr ⟨by simp [hl20], hf20⟩

/-- C2: every reply `Zone.ServeDNS` produces has the AA bit set, and a
reply with no answers has rcode NXDomain and, when the zone's SOA is
set, exactly one authority record: the SOA under the origin name with
the zone's default TTL. -/
theorem zone_reply_aa_nxdomain (z : Zone) (qs : List Question) (rd : Bool)
    (w : MessageWriter) (h : z.serveDNS qs rd = some w) :
    w.aa = true ∧
    (w.answers = [] → w.rcode = NXDomain ∧
      ∀ s, z.soa = some s →
        w.authorities = [(z.origin, z.ttl, some (.soa s))]) := by
  unfold Zone.serveDNS at h
  dsimp only at h
  split at h
  · exact Option.noConfusion h
  next w1 f heq =>
    obtain ⟨haa, hrc, haut, l, hl, hcase⟩ :=
      serveLoop_inv z rd qs _ false w1 f heq
    simp only [MessageWriter.initial] at haa hrc haut hl
    cases f with
    | true =>
      rw [if_pos rfl] at h
      obtain rfl := Option.some.inj h
      refine ⟨haa, fun hans => absurd hans ?_⟩
      rcases hcase with ⟨_, hf⟩ | ⟨hl0, _⟩
      · cases hf
      · rw [hl]
        simpa using hl0
    | false =>
      rw [if_neg (by simp)] at h
      cases hz : z.soa with
      | none =>
        rw [hz] at h
        obtain rfl := Option.some.inj h
        exact ⟨haa, fun _ => ⟨rfl, fun s hs => Option.noConfusion hs⟩⟩
      | some s0 =>
        rw [hz] at h
        dsimp only at h
        obtain rfl := Option.some.inj h
        refine ⟨haa, fun _ => ⟨rfl, fun s hs => ?_⟩⟩
        obtain rfl := Option.some.inj hs
        simp [MessageWriter.authority, haut]

/-- The zone and expected reply for the C2 witness. -/
def soaC2 : SOAdata :=
  { ns := "ns.tld.", mbox := "mb.tld.", serial := 1, refresh := 0,
    retry := 0, expire := 0, minttl := 0 }

def zoneC2w : Zone :=
  { origin := "tld.", ttl := 3600, soa := some soaC2, rrs := fun _ => none }

def wC2 : MessageWriter :=
  { aa := true, ra := false, rcode := NXDomain, answers := [],
    authorities := [("tld.", 3600, some (.soa soaC2))], additionals := [] }

/-- C2 witness: a query for an absent name yields an authoritative
NXDomain reply whose single authority record is the zone's SOA. -/
theorem zone_reply_aa_nxdomain_witness :
    wC2.aa = true ∧
    (wC2.answers = [] → wC2.rcode = NXDomain ∧
      ∀ s, zoneC2w.soa = some s →
        wC2.authorities = [(zoneC2w.origin, zoneC2w.ttl, some (.soa s))]) :=
  zone_reply_aa_nxdomain zoneC2w [{ name := "missing.tld.", ty := TypeA, class' := 1 }]
    false wC2 rfl

lemma chase_cname_eq (z : Zone) (q : Question) (w : MessageWriter)
    (target dn : String) (rrs2 : DnsType → List Record)
    (hdn : goSlice target ((target.length : Int) - (z.origin.length : Int) - 1) = some dn)
    (hget : z.rrs dn = some rrs2) :
    z.chase q true w (.cname target)
      = some { w with answers := w.answers
          ++ (rrs2 q.ty).map (fun rr2 => (target, z.ttl, some rr2)) } := by
  rw [Zone.chase, if_pos ⟨rfl, rfl⟩]
  simp only [hdn, hget, foldl_answer_eq]

lemma serveRecs_chase_mem (z : Zone) (q : Question) (target dn : String)
    (rrs2 : DnsType → List Record)
    (hdn : goSlice target ((target.length : Int) - (z.origin.length : Int) - 1) = some dn)
    (hget : z.rrs dn = some rrs2) :
    ∀ (recs : List Record) (w : MessageWriter) (f : Bool)
      (w' : MessageWriter) (f' : Bool),
      Record.cname target ∈ recs →
      z.serveRecs q true recs (w, f) = some (w', f') →
      ∀ rr2 ∈ rrs2 q.ty, (target, z.ttl, some rr2) ∈ w'.answers := by
  intro recs
  induction recs with
  | nil =>
    intro w f w' f' hmem
    exact absurd hmem (by simp)
  | cons rr rest ih =>
    intro w f w' f' hmem h
    rw [Zone.serveRecs] at h
    rcases List.mem_cons.mp hmem with heq | hmem2
    · subst heq
      rw [chase_cname_eq z q _ target dn rrs2 hdn hget] at h
      dsimp only at h
      intro rr2 hrr2
      obtain ⟨_, _, _, l3, hl3, _⟩ := serveRecs_inv z q true rest _ true w' f' h
      rw [hl3]
      exact List.mem_append_left _
        (List.mem_append_right _ (List.mem_map_of_mem _ hrr2))
    · cases hc : z.chase q true (w.answer q.name z.ttl (some rr)) rr with
      | none => rw [hc] at h; exact Option.noConfusion h
      | some w2 =>
        rw [hc] at h
        dsimp only at h
        exact ih w2 true w' f' hmem2 h

/-- C4: with recursion desired, when the question's short-name lookup
yields a CNAME record of the question's type and the CNAME target lies
under the origin, `Zone.ServeDNS` additionally looks up the target
stripped of the origin and emits, under the target name, every record
stored there for the original question type. -/
theorem zone_cname_chase_emits (z : Zone) (q : Question)
    (w : MessageWriter) (f : Bool) (w' : MessageWriter) (f' : Bool)
    (dn : String) (rrs1 : DnsType → List Record)
    (target dn2 : String) (rrs2 : DnsType → List Record)
    (hsuf : goHasSuffix q.name z.origin = true)
    (hnotsoa : ¬ (q.ty = TypeSOA ∧ q.name = z.origin))
    (hdn : goSlice q.name ((q.name.length : Int) - (z.origin.length : Int) - 1) = some dn)
    (hget : z.rrs dn = some rrs1)
    (hmem : Record.cname target ∈ rrs1 q.ty)
    (hdn2 : goSlice target ((target.length : Int) - (z.origin.length : Int) - 1) = some dn2)
    (hget2 : z.rrs dn2 = some rrs2)
    (hrun : z.serveQuestion true (some (w, f)) q = some (w', f')) :
    ∀ rr2 ∈ rrs2 q.ty, (target, z.ttl, some rr2) ∈ w'.answers := by
  unfold Zone.serveQuestion at hrun
  dsimp only at hrun
  rw [if_neg (by simp [hsuf]), if_neg hnotsoa, hdn] at hrun
  dsimp only at hrun
  rw [hget] at hrun
  dsimp only at hrun
  exact serveRecs_chase_mem z q target dn2 rrs2 hdn2 hget2
    (rrs1 q.ty) w f w' f' hmem hrun

/-- The zone and concrete run for the C4 witness. -/
def zoneC4 : Zone :=
  { origin := "tld.", ttl := 60, soa := none,
    rrs := fun k =>
      if k = "app" then some (fun t => if t = TypeCNAME then [.cname "www.tld."] else [])
      else if k = "www" then some (fun t => if t = TypeCNAME then [.cname "x.tld."] else [])
      else none }

def qC4 : Question := { name := "app.tld.", ty := TypeCNAME, class' := 1 }

def wC4 : MessageWriter :=
  { aa := false, ra := false, rcode := NoError,
    answers := [("app.tld.", 60, some (.cname "www.tld.")),
                ("www.tld.", 60, some (.cname "x.tld."))],
    authorities := [], additionals := [] }

/-- C4 witness: chasing `app → www` inside the zone emits the record
stored under the target name for the original question type. -/
theorem zone_cname_chase_emits_witness :
    ("www.tld.", (60 : Int), some (Record.cname "x.tld.")) ∈ wC4.answers :=
  zone_cname_chase_emits zoneC4 qC4 MessageWriter.initial false wC4 true
    "app" (fun t => if t = TypeCNAME then [.cname "www.tld."] else [])
    "www.tld." "www" (fun t => if t = TypeCNAME then [.cname "x.tld."] else [])
    (by decide) (by decide) (by decide) rfl (by decide) (by decide) rfl rfl
    (Record.cname "x.tld.") (by decide)

/-- C9 amendment: for a resource with non-negative TTL whose name packs
successfully, `Resource.Pack` fails with FieldOverflow whenever the TTL
in whole seconds does not fit 32 unsigned bits; the converse holds — and
on success the TTL is encoded as that 32-bit second count — provided the
record's length fits 16 bits and the record's own packing does not
itself report FieldOverflow, since the RDATA-length check and the
record packers reuse the same error. -/
theorem resource_pack_ttl (r : Resource) (b b1 : List Nat) (com : Compressor)
    (httl : 0 ≤ r.ttl)
    (hname : com.packName b r.name = .ok b1) :
    (4294967296 ≤ Int.tdiv r.ttl 1000000000 →
      r.Pack b com = .error .fieldOverflow) ∧
    (∀ n, recordLength r.record com = .ok n → n < 65536 →
      recordPack r.record (b1 ++ u16be r.record.rtype ++ u16be r.class'
          ++ u32be (Int.tdiv r.ttl 1000000000).toNat ++ u16be n) com
        ≠ .error .fieldOverflow →
      (r.Pack b com = .error .fieldOverflow ↔
        4294967296 ≤ Int.tdiv r.ttl 1000000000)) ∧
    (∀ n, recordLength r.record com = .ok n → n < 65536 →
      Int.tdiv r.ttl 1000000000 < 4294967296 →
      r.Pack b com = recordPack r.record (b1 ++ u16be r.record.rtype
          ++ u16be r.class' ++ u32be (Int.tdiv r.ttl 1000000000).toNat
          ++ u16be n) com) := by
  have hs0 : 0 ≤ Int.tdiv r.ttl 1000000000 := Int.tdiv_nonneg httl (by norm_num)
  set s := Int.tdiv r.ttl 1000000000 with hsdef
  have he1 : 0 ≤ s.emod 4294967296 := Int.emod_nonneg s (by norm_num)
  have he2 : s.emod 4294967296 < 4294967296 := Int.emod_lt_of_pos s (by norm_num)
  have hcheckP : (((s.emod 4294967296).toNat : Int) ≠ s) ↔ 4294967296 ≤ s := by
    rw [Int.toNat_of_nonneg he1]
    constructor
    · intro hne
      by_contra hlt'
      exact hne (Int.emod_eq_of_lt hs0 (by omega))
    · intro h32 heq
      omega
  have hge : 4294967296 ≤ s → r.Pack b com = .error .fieldOverflow := by
    intro h32
    rw [Resource.Pack, hname]
    dsimp only
    rw [if_pos (hcheckP.mpr h32)]
  have hlt : ∀ n, recordLength r.record com = .ok n → n < 65536 →
      s < 4294967296 →
      r.Pack b com = recordPack r.record (b1 ++ u16be r.record.rtype
        ++ u16be r.class' ++ u32be s.toNat ++ u16be n) com := by
    intro n hn hn16 h32
    rw [Resource.Pack, hname]
    dsimp only
    rw [if_neg (by simp only [hcheckP]; omega), hn]
    dsimp only
    rw [if_neg (by omega)]
    have hm : (s.emod 4294967296).toNat = s.toNat := by omega
    have hmod : n % 65536 = n := Nat.mod_eq_of_lt hn16
    rw [hm, hmod]
  refine ⟨hge, fun n hn hn16 hrp => ⟨fun herr => ?_, hge⟩, hlt⟩
  by_contra hnot
  have h32 : s < 4294967296 := by omega
  rw [hlt n hn hn16 h32] at herr
  exact hrp herr

/-- The resource for the C9 counterexample: a fitting TTL of zero, but
an MX record whose preference does not fit 16 bits. -/
def resC9 : Resource :=
  { name := "a.", class' := 1, ttl := 0, record := .mx 65536 "mx.a." }

/-- C9 counterexample: `Resource.Pack` fails with FieldOverflow from
the record's own packing although the TTL, zero seconds, fits 32 bits,
so FieldOverflow does not characterise an unfit TTL. -/
theorem resource_pack_fieldOverflow_fitting_ttl :
    Resource.Pack resC9 [] compressorEmpty = .error .fieldOverflow ∧
    Int.tdiv resC9.ttl 1000000000 = 0 := ⟨rfl, rfl⟩

/-- The resource for the C9 witness: a 5-second TTL on an A record. -/
def resC9w : Resource :=
  { name := "a.", class' := 1, ttl := 5000000000, record := .a [1, 2, 3, 4] }

/-- C9 witness: with a fitting 5-second TTL the pack succeeds and the
TTL field holds the 32-bit second count, by the amended theorem at a
concrete resource. -/
theorem resource_pack_ttl_witness :
    Resource.Pack resC9w [] compressorEmpty
      = .ok [1, 97, 0, 0, 1, 0, 1, 0, 0, 0, 5, 0, 4, 1, 2, 3, 4] := by
  have h := (resource_pack_ttl resC9w [] [1, 97, 0] compressorEmpty
      (by decide) rfl).2.2 4 rfl (by norm_num) (by decide)
  rw [h]
  rfl

/-- C10: `Resource.Unpack` reads the RDLENGTH-bounded window after the
fixed fields, fails with UnknownType when the type has no registered
constructor, hands exactly the windowed slice to the record unpacker,
fails with ResTooLong when the record left part of the window unread,
and on success consumes exactly RDLENGTH bytes of RDATA. -/
theorem resource_unpack_window (dec : Decompressor) (b b1 : List Nat)
    (name : String)
    (hname : dec.unpackName b = .ok (name, b1))
    (hlen : 10 ≤ b1.length)
    (hrd : u16at b1 8 ≤ (b1.drop 10).length) :
    (registeredType (u16at b1 0) = false →
      Resource.Unpack dec b = .error .unknownType) ∧
    (∀ rec buf, registeredType (u16at b1 0) = true →
      recordUnpack (u16at b1 0) ((b1.drop 10).take (u16at b1 8)) dec
        = .ok (rec, buf) →
      buf ≠ [] → Resource.Unpack dec b = .error .resTooLong) ∧
    (∀ rec, registeredType (u16at b1 0) = true →
      recordUnpack (u16at b1 0) ((b1.drop 10).take (u16at b1 8)) dec
        = .ok (rec, []) →
      Resource.Unpack dec b = .ok
        ({ name := name, class' := u16at b1 2,
           ttl := (u32at b1 4 : Int) * 1000000000, record := rec },
         (b1.drop 10).drop (u16at b1 8))) := by
  have hbase : ∀ rest, (if ¬ registeredType (u16at b1 0) then
        Except.error Err.unknownType else rest) = Resource.Unpack dec b →
      True := fun _ _ => trivial
  refine ⟨fun hreg => ?_, fun rec buf hreg hun hbuf => ?_, fun rec hreg hun => ?_⟩
  · rw [Resource.Unpack, hname]
    dsimp only
    rw [if_neg (by omega), if_neg (by omega), if_pos (by simp [hreg])]
  · rw [Resource.Unpack, hname]
    dsimp only
    rw [if_neg (by omega), if_neg (by omega), if_neg (by simp [hreg]), hun]
    dsimp only
    rw [if_pos (List.length_pos.mpr hbuf)]
  · rw [Resource.Unpack, hname]
    dsimp only
    rw [if_neg (by omega), if_neg (by omega), if_neg (by simp [hreg]), hun]
    dsimp only
    rw [if_neg (by simp)]

/-- C10 witness: a concrete A resource over the nil decompressor,
consuming exactly its 4-byte window. -/
theorem resource_unpack_window_witness :
    Resource.Unpack decompressorNil
        [1, 120, 0, 0, 1, 0, 1, 0, 0, 0, 0, 0, 4, 9, 9, 9, 9]
      = .ok ({ name := "x.", class' := 1, ttl := 0, record := .a [9, 9, 9, 9] },
             []) := by
  have h := (resource_unpack_window decompressorNil
      [1, 120, 0, 0, 1, 0, 1, 0, 0, 0, 0, 0, 4, 9, 9, 9, 9]
      [0, 1, 0, 1, 0, 0, 0, 0, 0, 4, 9, 9, 9, 9] "x."
      rfl (by decide) (by decide)).2.2 (.a [9, 9, 9, 9]) rfl rfl
  simpa using h

end DnsSpec
